import Mathlib

/-!
Shallow embedding of the go-curator work-distribution recipe
(src/client.go): the `Work`/`Worker` pair built on a child cache, the
`WorkerList` registry, and the shift/unshift redistribution operations.
Store effects (create/delete outcomes of the remote node store) are made
explicit as response oracles passed to each operation.
-/

namespace Curator

/-- Modelled from the spec: the `Znode` node-identity value type (spec §3)
is defined in the repository outside the provided sources; it is a path in
the coordination namespace plus cached opaque data, with identity by path. -/
structure Znode where
  Path : String
  Data : String := ""
deriving DecidableEq, Repr

/-- Modelled from the spec: `NewZnode` constructs a node identity bound to a
path (spec §3: path immutable after construction). -/
def NewZnode (path : String) : Znode := ⟨path, ""⟩

/-- Handle to the external node store (connection management is out of scope,
spec §1/§6); it carries no state relevant to the recipe layer. -/
structure Client where
  deriving DecidableEq, Repr

/-- Store-side failure kinds (spec §7 taxonomy). -/
inductive StoreErr where
  | nodeExists
  | disconnected
  | other
deriving DecidableEq, Repr

/-- Outcome of a store create call (spec §6). -/
inductive CreateResp where
  | ok
  | err (e : StoreErr)
deriving DecidableEq, Repr

/-- Outcome of a store delete call; `noNode` is the "already absent" case,
which spec §4.1/§7 treats as success (idempotent delete). -/
inductive DeleteResp where
  | ok
  | noNode
  | err (e : StoreErr)
deriving DecidableEq, Repr

/-- A create request as issued to the node store (spec §6): path plus the
creation flags applied. -/
structure CreateReq where
  path : String
  flags : Int
deriving DecidableEq, Repr

/-- zk.FlagEphemeral, the creation-flags value marking an ephemeral node. -/
def FlagEphemeral : Int := 1

/-- Modelled from the spec: the `ChildCache` component (spec §3, §4.1) is not
among the provided sources; owning path, creation-flags policy for new
children, and the ordered local mirror of the child set. -/
structure ChildCache where
  client : Client
  path : String
  CreateFlags : Int
  children : List Znode
deriving DecidableEq, Repr

/-- Modelled from the spec: `NewChildCache` binds a cache to a path with no
network calls yet (spec §3 lifecycle); flags default to persistent. -/
def NewChildCache (client : Client) (path : String) : ChildCache :=
  ⟨client, path, 0, []⟩

/-- Modelled from the spec: `Size()` returns the count of the local set
(spec §4.1). -/
def ChildCache.size (cc : ChildCache) : Nat := cc.children.length

/-- Modelled from the spec: `ToSlice()` returns a point-in-time ordered copy
of the local set (spec §4.1). -/
def ChildCache.toSlice (cc : ChildCache) : List Znode := cc.children

/-- Modelled from the spec: `Add(node)` issues a create using the cache
creation flags; on success appends the node locally, on failure leaves the
local set unchanged and returns the store error (spec §4.1). The issued
create request is returned as the third component. -/
def ChildCache.add (cc : ChildCache) (resp : CreateResp) (node : Znode) :
    ChildCache × Option StoreErr × CreateReq :=
  match resp with
  | .ok =>
      ({ cc with children := cc.children ++ [node] }, none,
        ⟨node.Path, cc.CreateFlags⟩)
  | .err e => (cc, some e, ⟨node.Path, cc.CreateFlags⟩)

/-- Modelled from the spec: `Remove(node)` issues a delete; on success (or
"already absent", treated as success) removes the matching entry by path
from the local set, otherwise leaves the set unchanged and returns the
store error (spec §4.1, §7). -/
def ChildCache.remove (cc : ChildCache) (resp : DeleteResp) (node : Znode) :
    ChildCache × Option StoreErr :=
  match resp with
  | .ok =>
      ({ cc with children := cc.children.filter (fun c => c.Path != node.Path) },
        none)
  | .noNode =>
      ({ cc with children := cc.children.filter (fun c => c.Path != node.Path) },
        none)
  | .err e => (cc, some e)

/-- `Work` (src/client.go 129-132): an embedded node identity plus an owned
child cache. -/
structure Work where
  znode : Znode
  Children : ChildCache
deriving DecidableEq, Repr

/-- `Work.Id` (src/client.go 134): identity is the embedded path. -/
def Work.Id (w : Work) : String := w.znode.Path

/-- `NewWork` (src/client.go 136-141): builds the node identity and a child
cache at the same path, then sets the cache creation flags to ephemeral. -/
def NewWork (client : Client) (path : String) : Work :=
  ⟨NewZnode path, { NewChildCache client path with CreateFlags := FlagEphemeral }⟩

/-- `Worker` (src/client.go 147-150): structurally identical to `Work`. -/
structure Worker where
  znode : Znode
  Children : ChildCache
deriving DecidableEq, Repr

/-- `Worker.Id` (src/client.go 152). -/
def Worker.Id (w : Worker) : String := w.znode.Path

/-- `NewWorker` (src/client.go 154-158): as `NewWork`, with the cache
creation flags set to ephemeral. -/
def NewWorker (client : Client) (path : String) : Worker :=
  ⟨NewZnode path, { NewChildCache client path with CreateFlags := FlagEphemeral }⟩

/-- The loop of `Worker.ShiftWork` (src/client.go 165-171): iterates the
snapshot taken before the loop, issues `Children.Remove` for each entry,
ignores the returned error (only a TODO log comment in the source), and
appends the entry to `removed` unconditionally. -/
def shiftLoop (o : Znode → DeleteResp) (sel : List Znode)
    (removed : List Znode) (w : Worker) : List Znode × Worker :=
  match sel with
  | [] => (removed, w)
  | v :: rest =>
      let r := w.Children.remove (o v) v
      shiftLoop o rest (removed ++ [v]) { w with Children := r.1 }

/-- `Worker.ShiftWork` (src/client.go 161-174): `amount` is a Go int and may
be non-positive; the guard is `size >= amount && amount > 0`, in which case
the first `amount` entries of `ToSlice()` are processed by the loop. The
store delete outcome for each node is given by the oracle `o`. -/
def Worker.shiftWork (w : Worker) (o : Znode → DeleteResp) (amount : Int) :
    List Znode × Worker :=
  if (w.Children.size : Int) ≥ amount ∧ amount > 0 then
    shiftLoop o (w.Children.toSlice.take amount.toNat) [] w
  else
    ([], w)

/-- `Worker.UnshiftWork` (src/client.go 176-183): issues `Children.Add` for
each node, ignoring the returned error (only a TODO log comment in the
source); the Go function returns nothing, so only the mutated worker is
observable. -/
def Worker.unshiftWork (w : Worker) (o : Znode → CreateResp)
    (nodes : List Znode) : Worker :=
  match nodes with
  | [] => w
  | n :: rest =>
      let r := w.Children.add (o n) n
      Worker.unshiftWork { w with Children := r.1 } o rest

/-- `WorkerList` (src/client.go 189-192): the mutex only serializes access
and is dropped; the sequential semantics is the worker sequence. -/
structure WorkerList where
  workers : List Worker
deriving DecidableEq, Repr

/-- `NewWorkerList` (src/client.go 194). -/
def NewWorkerList : WorkerList := ⟨[]⟩

/-- The loop of `WorkerList.IndexOf` (src/client.go 219-224): scans every
entry and records the index of each match, so the last match wins. -/
def indexOfLoop (ws : List Worker) (id : String) (i : Nat)
    (acc : Option Nat) : Option Nat :=
  match ws with
  | [] => acc
  | v :: rest =>
      indexOfLoop rest id (i + 1) (if v.Id = id then some i else acc)

/-- `WorkerList.IndexOf` (src/client.go 216-226). -/
def WorkerList.indexOf (l : WorkerList) (worker : Worker) : Option Nat :=
  indexOfLoop l.workers worker.Id 0 none

/-- `WorkerList.Add` (src/client.go 196-204): appends only when `IndexOf`
finds no entry with the same identity. -/
def WorkerList.add (l : WorkerList) (worker : Worker) : WorkerList × Bool :=
  match l.indexOf worker with
  | none => (⟨l.workers ++ [worker]⟩, true)
  | some _ => (l, false)

/-- `WorkerList.Remove` (src/client.go 206-214): when `IndexOf` finds a
match at `i`, splices it out with `append(workers[:i], workers[i+1:]...)`,
i.e. removes the element at index `i`. -/
def WorkerList.remove (l : WorkerList) (worker : Worker) : WorkerList × Bool :=
  match l.indexOf worker with
  | some i => (⟨l.workers.eraseIdx i⟩, true)
  | none => (l, false)

/-- `WorkerList.Size` (src/client.go 228-232). -/
def WorkerList.size (l : WorkerList) : Nat := l.workers.length

/-- A Go runtime panic, as raised by slice indexing with an index that is
negative or not below the length. -/
inductive GoPanic where
  | indexOutOfRange
deriving DecidableEq, Repr

/-- `WorkerList.At` (src/client.go 234-241): the source guard is only
`len(l.workers) > index`; inside the guard, Go slice indexing
`l.workers[index]` panics whenever `index` is negative. -/
def WorkerList.atIndex (l : WorkerList) (index : Int) :
    Except GoPanic (Option Worker) :=
  if index < (l.workers.length : Int) then
    if h : 0 ≤ index ∧ index.toNat < l.workers.length then
      .ok (some (l.workers.get ⟨index.toNat, h.2⟩))
    else
      .error .indexOutOfRange
  else
    .ok none

/-! Concrete values used by witnesses and counterexamples. -/

def clientEx : Client := ⟨⟩

def nd1 : Znode := NewZnode "/workers/w1/work-1"

def nd2 : Znode := NewZnode "/workers/w1/work-2"

def nd3 : Znode := NewZnode "/workers/w1/work-3"

/-- A worker at /workers/w1 holding one assigned child. -/
def workerB : Worker :=
  ⟨NewZnode "/workers/w1",
    { NewChildCache clientEx "/workers/w1" with
        CreateFlags := FlagEphemeral, children := [nd1] }⟩

/-- A worker at /workers/w1 holding three assigned children. -/
def workerC : Worker :=
  ⟨NewZnode "/workers/w1",
    { NewChildCache clientEx "/workers/w1" with
        CreateFlags := FlagEphemeral, children := [nd1, nd2, nd3] }⟩

/-- Delete oracle where every store delete succeeds. -/
def oOkD : Znode → DeleteResp := fun _ => DeleteResp.ok

/-- Create oracle where every store create succeeds. -/
def oOkC : Znode → CreateResp := fun _ => CreateResp.ok

/-- Delete oracle where every store delete fails with a disconnection. -/
def oFail : Znode → DeleteResp := fun _ => DeleteResp.err StoreErr.disconnected

def workerA : Worker := NewWorker clientEx "/workers/w1"

def workerA2 : Worker := NewWorker clientEx "/workers/w2"

def wlEx : WorkerList := ⟨[workerA]⟩

def wlEx2 : WorkerList := ⟨[workerA, workerA2]⟩

/-! Helper lemmas about the shift/unshift loops and the IndexOf loop. -/

/-- The removed slice accumulated by the shift loop is the whole selected
snapshot, regardless of delete outcomes. -/
theorem shiftLoop_fst (o : Znode → DeleteResp) (sel : List Znode) :
    ∀ (removed : List Znode) (w : Worker),
      (shiftLoop o sel removed w).1 = removed ++ sel := by
  induction sel with
  | nil => intro removed w; simp [shiftLoop]
  | cons v rest ih => intro removed w; simp [shiftLoop, ih]

/-- Filtering by "path differs from p" keeps a list none of whose entries
has path p. -/
theorem filter_path_ne (l : List Znode) (p : String)
    (h : ∀ c ∈ l, c.Path ≠ p) :
    l.filter (fun c => c.Path != p) = l := by
  apply List.filter_eq_self.mpr
  intro a ha
  simpa using h a ha

/-- A successful remove of the head of the cache leaves exactly the tail,
provided no tail entry shares the head's path. -/
theorem remove_ok_head (cc : ChildCache) (v : Znode) (t : List Znode)
    (hcc : cc.children = v :: t) (hnm : ∀ c ∈ t, c.Path ≠ v.Path) :
    (cc.remove DeleteResp.ok v).1.children = t := by
  show cc.children.filter (fun c => c.Path != v.Path) = t
  rw [hcc, List.filter_cons]
  have h1 : (v.Path != v.Path) = false := by simp
  rw [h1]
  simpa using filter_path_ne t v.Path hnm

/-- When every selected delete succeeds and paths are duplicate-free, the
shift loop leaves exactly the unselected remainder in the cache. -/
theorem shiftLoop_children (o : Znode → DeleteResp) (rest : List Znode)
    (sel : List Znode) :
    (∀ v ∈ sel, o v = DeleteResp.ok) →
    ((sel ++ rest).map Znode.Path).Nodup →
    ∀ (removed : List Znode) (w : Worker),
      w.Children.children = sel ++ rest →
      (shiftLoop o sel removed w).2.Children.children = rest := by
  induction sel with
  | nil =>
      intro _ _ removed w hw
      simpa [shiftLoop] using hw
  | cons v t ih =>
      intro hok hnd removed w hw
      have hov : o v = DeleteResp.ok := hok v (List.mem_cons_self v t)
      have hnd' : (v.Path :: ((t ++ rest).map Znode.Path)).Nodup := by
        simpa using hnd
      have hnm : ∀ c ∈ t ++ rest, c.Path ≠ v.Path := by
        intro c hc hcp
        exact (List.nodup_cons.mp hnd').1 (hcp ▸ List.mem_map_of_mem Znode.Path hc)
      have hchil : ((w.Children.remove (o v) v).1).children = t ++ rest := by
        rw [hov]
        exact remove_ok_head w.Children v (t ++ rest) (by simpa using hw) hnm
      have hstep :
          shiftLoop o (v :: t) removed w =
            shiftLoop o t (removed ++ [v])
              { w with Children := (w.Children.remove (o v) v).1 } := rfl
      rw [hstep]
      exact ih (fun u hu => hok u (List.mem_cons_of_mem v hu))
        (List.nodup_cons.mp hnd').2 (removed ++ [v]) _ hchil

/-- When every create succeeds, unshift appends exactly the given nodes. -/
theorem unshiftWork_children_ok (o : Znode → CreateResp) (nodes : List Znode) :
    (∀ v ∈ nodes, o v = CreateResp.ok) →
    ∀ (w : Worker),
      (w.unshiftWork o nodes).Children.children
        = w.Children.children ++ nodes := by
  induction nodes with
  | nil => intro _ w; simp [Worker.unshiftWork]
  | cons n rest ih =>
      intro hok w
      have hn : o n = CreateResp.ok := hok n (List.mem_cons_self n rest)
      have hstep :
          Worker.unshiftWork w o (n :: rest) =
            Worker.unshiftWork { w with Children := (w.Children.add (o n) n).1 }
              o rest := rfl
      rw [hstep, ih (fun u hu => hok u (List.mem_cons_of_mem n hu))]
      rw [hn]
      show (w.Children.children ++ [n]) ++ rest
        = w.Children.children ++ n :: rest
      simp

/-- The IndexOf loop returns none exactly when it started with none and no
scanned entry matches the identity. -/
theorem indexOfLoop_eq_none (id : String) (ws : List Worker) :
    ∀ (i : Nat) (acc : Option Nat),
      indexOfLoop ws id i acc = none ↔
        acc = none ∧ ∀ v ∈ ws, v.Id ≠ id := by
  induction ws with
  | nil => intro i acc; simp [indexOfLoop]
  | cons v rest ih =>
      intro i acc
      simp only [indexOfLoop]
      rw [ih]
      by_cases hv : v.Id = id
      · simp [hv]
      · simp only [if_neg hv, List.forall_mem_cons]
        constructor
        · rintro ⟨h1, h2⟩; exact ⟨h1, hv, h2⟩
        · rintro ⟨h1, _, h2⟩; exact ⟨h1, h2⟩

/-- When the IndexOf loop returns an index it did not inherit from its
accumulator, that index points at a matching entry. -/
theorem indexOfLoop_eq_some (id : String) (ws : List Worker) :
    ∀ (i : Nat) (acc : Option Nat) (j : Nat),
      indexOfLoop ws id i acc = some j →
      acc = some j ∨
        ∃ k, ∃ h : k < ws.length, i + k = j ∧ (ws.get ⟨k, h⟩).Id = id := by
  induction ws with
  | nil => intro i acc j h; exact Or.inl (by simpa [indexOfLoop] using h)
  | cons v rest ih =>
      intro i acc j h
      simp only [indexOfLoop] at h
      rcases ih (i + 1) _ j h with hacc | ⟨k, hk, hik, hid⟩
      · by_cases hv : v.Id = id
        · rw [if_pos hv] at hacc
          right
          refine ⟨0, Nat.succ_pos _, ?_, ?_⟩
          · simpa using Option.some.inj hacc
          · simpa using hv
        · rw [if_neg hv] at hacc
          exact Or.inl hacc
      · right
        refine ⟨k + 1, Nat.succ_lt_succ hk, by omega, ?_⟩
        simpa using hid

/-! Claim theorems. -/

/-- Claim C1, counterexample: on a worker with one assigned child whose
store delete fails (disconnected), ShiftWork(1) still returns that entry in
the removed slice, although its Remove call failed — the source appends the
node unconditionally (src/client.go 167-170). -/
theorem shiftWork_failed_remove_in_result :
    (workerB.Children.remove (oFail nd1) nd1).2 = some StoreErr.disconnected ∧
    (workerB.shiftWork oFail 1).1 = [nd1] :=
  ⟨by decide, by decide⟩

/-- Claim C1 (amended): for 0 < amount ≤ Size, the slice returned by
ShiftWork(amount) contains all of the selected first `amount` entries,
including those whose Children.Remove call failed — removal outcome does
not affect membership in the result. -/
theorem shiftWork_returns_all_selected (w : Worker) (o : Znode → DeleteResp)
    (amount : Int) (h1 : 0 < amount)
    (h2 : amount ≤ (w.Children.size : Int)) :
    (w.shiftWork o amount).1 = w.Children.toSlice.take amount.toNat := by
  unfold Worker.shiftWork
  rw [if_pos ⟨h2, h1⟩]
  simpa using shiftLoop_fst o (w.Children.toSlice.take amount.toNat) [] w

/-- Claim C1 (amended) witness at a worker with one child and a failing
delete oracle: the failed entry is still returned. -/
theorem shiftWork_returns_all_selected_witness :
    (0 : Int) < 1 ∧ (1 : Int) ≤ (workerB.Children.size : Int) ∧
    (workerB.shiftWork oFail 1).1
      = workerB.Children.toSlice.take (1 : Int).toNat :=
  ⟨by decide, by decide,
    shiftWork_returns_all_selected workerB oFail 1 (by decide) (by decide)⟩

/-- Claim C2: the slice returned by ShiftWork is identical under any two
store-delete oracles — per-item Remove failures cannot be observed in the
returned value, so they are silently discarded rather than reported (the
Go function returns only []Znode; UnshiftWork returns nothing at all). -/
theorem shiftWork_result_oracle_independent (w : Worker)
    (o o2 : Znode → DeleteResp) (amount : Int) :
    (w.shiftWork o amount).1 = (w.shiftWork o2 amount).1 := by
  unfold Worker.shiftWork
  by_cases h : (w.Children.size : Int) ≥ amount ∧ amount > 0
  · rw [if_pos h, if_pos h, shiftLoop_fst, shiftLoop_fst]
  · rw [if_neg h, if_neg h]

/-- Claim C3: for 0 < amount ≤ Size, with the cache invariant that no two
entries share a path and with every selected delete succeeding,
ShiftWork(amount) returns exactly the first `amount` entries of the cache
order (FIFO) and Size decreases by `amount`. -/
theorem shiftWork_fifo_removes_first (w : Worker) (o : Znode → DeleteResp)
    (amount : Int) (h1 : 0 < amount)
    (h2 : amount ≤ (w.Children.size : Int))
    (hnd : (w.Children.children.map Znode.Path).Nodup)
    (hok : ∀ v ∈ w.Children.toSlice.take amount.toNat, o v = DeleteResp.ok) :
    (w.shiftWork o amount).1 = w.Children.toSlice.take amount.toNat ∧
    (w.shiftWork o amount).2.Children.size + amount.toNat
      = w.Children.size := by
  have hn : amount.toNat ≤ w.Children.size := by
    simpa [ChildCache.size] using Int.toNat_le.mpr h2
  constructor
  · unfold Worker.shiftWork
    rw [if_pos ⟨h2, h1⟩]
    simpa using shiftLoop_fst o (w.Children.toSlice.take amount.toNat) [] w
  · have hchil : (w.shiftWork o amount).2.Children.children
        = w.Children.children.drop amount.toNat := by
      unfold Worker.shiftWork
      rw [if_pos ⟨h2, h1⟩]
      apply shiftLoop_children o (w.Children.children.drop amount.toNat)
        (w.Children.children.take amount.toNat)
      · simpa [ChildCache.toSlice] using hok
      · rw [List.take_append_drop]
        exact hnd
      · exact (List.take_append_drop amount.toNat w.Children.children).symm
    show (w.shiftWork o amount).2.Children.children.length + amount.toNat
      = w.Children.children.length
    rw [hchil, List.length_drop]
    simp only [ChildCache.size] at hn
    omega

/-- Claim C3 witness: a worker with three children, all deletes succeeding,
ShiftWork(2) returns the first two entries and Size drops from 3 to 1. -/
theorem shiftWork_fifo_removes_first_witness :
    ((0 : Int) < 2 ∧ (2 : Int) ≤ (workerC.Children.size : Int) ∧
      (workerC.Children.children.map Znode.Path).Nodup ∧
      ∀ v ∈ workerC.Children.toSlice.take (2 : Int).toNat,
        oOkD v = DeleteResp.ok) ∧
    ((workerC.shiftWork oOkD 2).1
        = workerC.Children.toSlice.take (2 : Int).toNat ∧
      (workerC.shiftWork oOkD 2).2.Children.size + (2 : Int).toNat
        = workerC.Children.size) :=
  ⟨⟨by decide, by decide, by decide, by decide⟩,
    shiftWork_fifo_removes_first workerC oOkD 2 (by decide) (by decide)
      (by decide) (by decide)⟩

/-- Claim C4: when Size < amount, ShiftWork performs no removal, leaves the
worker (and its child cache) unchanged, and returns an empty slice. -/
theorem shiftWork_amount_exceeds_size_noop (w : Worker)
    (o : Znode → DeleteResp) (amount : Int)
    (h : (w.Children.size : Int) < amount) :
    w.shiftWork o amount = ([], w) := by
  unfold Worker.shiftWork
  rw [if_neg]
  rintro ⟨h1, _⟩
  exact absurd h1 (not_le.mpr h)

/-- Claim C4 witness: ShiftWork(2) on a worker holding one child is a
no-op returning the empty slice. -/
theorem shiftWork_amount_exceeds_size_noop_witness :
    (workerB.Children.size : Int) < 2 ∧
    workerB.shiftWork oOkD 2 = ([], workerB) :=
  ⟨by decide, shiftWork_amount_exceeds_size_noop workerB oOkD 2 (by decide)⟩

/-- Claim C5, counterexample: ShiftWork with a non-positive amount does not
reject the call with an error — the Go function's only return value is the
slice, and at amount 0 (and -3) it returns the same normal empty outcome it
returns for the legitimate amount-exceeds-size no-op. -/
theorem shiftWork_nonpositive_no_error :
    workerB.shiftWork oOkD 0 = ([], workerB) ∧
    workerB.shiftWork oOkD (-3) = ([], workerB) ∧
    workerB.shiftWork oOkD 0 = workerB.shiftWork oOkD 2 :=
  ⟨by decide, by decide, by decide⟩

/-- Claim C5 (amended): ShiftWork with amount ≤ 0 performs no removals and
returns an empty slice as a normal outcome; no error value is produced
(the function has no error channel). -/
theorem shiftWork_nonpositive_noop (w : Worker) (o : Znode → DeleteResp)
    (amount : Int) (h : amount ≤ 0) :
    w.shiftWork o amount = ([], w) := by
  unfold Worker.shiftWork
  rw [if_neg]
  rintro ⟨_, h2⟩
  exact absurd h2 (not_lt.mpr h)

/-- Claim C5 (amended) witness at amount -3. -/
theorem shiftWork_nonpositive_noop_witness :
    (-3 : Int) ≤ 0 ∧ workerB.shiftWork oOkD (-3) = ([], workerB) :=
  ⟨by decide, shiftWork_nonpositive_noop workerB oOkD (-3) (by decide)⟩

/-- Claim C6: At(-1) on a one-element registry panics (Go slice indexing
with a negative index), because the source guard checks only
len(workers) > index; an index past the end returns the absent value, and
an in-range index returns the entry. -/
theorem atIndex_negative_panics :
    wlEx.atIndex (-1) = Except.error GoPanic.indexOutOfRange ∧
    wlEx.atIndex 1 = Except.ok none ∧
    wlEx.atIndex 0 = Except.ok (some workerA) :=
  ⟨rfl, rfl, rfl⟩

/-- Claim C7: Add(worker) appends the worker and returns true exactly when
no existing entry shares its identity; otherwise it returns false and the
registry is unchanged. -/
theorem workerList_add_spec (l : WorkerList) (worker : Worker) :
    l.add worker =
      if ∃ v ∈ l.workers, v.Id = worker.Id then (l, false)
      else (⟨l.workers ++ [worker]⟩, true) := by
  unfold WorkerList.add WorkerList.indexOf
  by_cases h : ∃ v ∈ l.workers, v.Id = worker.Id
  · rw [if_pos h]
    rcases h with ⟨v, hv, hid⟩
    cases hio : indexOfLoop l.workers worker.Id 0 none with
    | none =>
        exact absurd hid
          (((indexOfLoop_eq_none worker.Id l.workers 0 none).mp hio).2 v hv)
    | some j => rfl
  · rw [if_neg h]
    have hnone : indexOfLoop l.workers worker.Id 0 none = none := by
      apply (indexOfLoop_eq_none worker.Id l.workers 0 none).mpr
      exact ⟨rfl, fun v hv hid => h ⟨v, hv, hid⟩⟩
    rw [hnone]

/-- Claim C8: Remove(worker) removes the entry matching the worker's
identity when one is present — the result is an order-preserving sublist
one shorter, obtained by erasing a matching index — and returns true; when
no entry matches it returns false with the registry unchanged. -/
theorem workerList_remove_spec (l : WorkerList) (worker : Worker) :
    ((∀ v ∈ l.workers, v.Id ≠ worker.Id) → l.remove worker = (l, false)) ∧
    ((∃ v ∈ l.workers, v.Id = worker.Id) →
      (l.remove worker).2 = true ∧
      List.Sublist (l.remove worker).1.workers l.workers ∧
      (l.remove worker).1.workers.length + 1 = l.workers.length ∧
      ∃ j, ∃ h : j < l.workers.length,
        (l.workers.get ⟨j, h⟩).Id = worker.Id ∧
        (l.remove worker).1.workers = l.workers.eraseIdx j) := by
  constructor
  · intro hall
    unfold WorkerList.remove WorkerList.indexOf
    have hnone : indexOfLoop l.workers worker.Id 0 none = none :=
      (indexOfLoop_eq_none worker.Id l.workers 0 none).mpr ⟨rfl, hall⟩
    rw [hnone]
  · rintro ⟨v, hv, hid⟩
    cases hio : indexOfLoop l.workers worker.Id 0 none with
    | none =>
        exact absurd hid
          (((indexOfLoop_eq_none worker.Id l.workers 0 none).mp hio).2 v hv)
    | some j =>
        have hrm : l.remove worker = (⟨l.workers.eraseIdx j⟩, true) := by
          unfold WorkerList.remove WorkerList.indexOf
          rw [hio]
        rcases indexOfLoop_eq_some worker.Id l.workers 0 none j hio with
          h0 | ⟨k, hk, hik, hkid⟩
        · exact absurd h0 (by simp)
        · have hkj : k = j := by omega
          subst hkj
          refine ⟨by rw [hrm], ?_, ?_, k, hk, hkid, by rw [hrm]⟩
          · rw [hrm]
            exact List.eraseIdx_sublist l.workers k
          · rw [hrm]
            exact List.length_eraseIdx_add_one hk

/-- Claim C8 witness: removing the second of two workers succeeds,
shortens the registry by one, and erases the matching index. -/
theorem workerList_remove_spec_witness :
    (∃ v ∈ wlEx2.workers, v.Id = workerA2.Id) ∧
    ((wlEx2.remove workerA2).2 = true ∧
      List.Sublist (wlEx2.remove workerA2).1.workers wlEx2.workers ∧
      (wlEx2.remove workerA2).1.workers.length + 1
        = wlEx2.workers.length ∧
      ∃ j, ∃ h : j < wlEx2.workers.length,
        (wlEx2.workers.get ⟨j, h⟩).Id = workerA2.Id ∧
        (wlEx2.remove workerA2).1.workers = wlEx2.workers.eraseIdx j) :=
  ⟨by decide, (workerList_remove_spec wlEx2 workerA2).2 (by decide)⟩

/-- Claim C9: for 0 < amount ≤ Size, duplicate-free paths, and all store
operations succeeding, UnshiftWork of the slice returned by
ShiftWork(amount) restores Size to its pre-shift value. -/
theorem shift_unshift_roundtrip_size (w : Worker) (ro : Znode → DeleteResp)
    (ao : Znode → CreateResp) (amount : Int)
    (h1 : 0 < amount) (h2 : amount ≤ (w.Children.size : Int))
    (hnd : (w.Children.children.map Znode.Path).Nodup)
    (hro : ∀ v ∈ w.Children.toSlice.take amount.toNat, ro v = DeleteResp.ok)
    (hao : ∀ v ∈ (w.shiftWork ro amount).1, ao v = CreateResp.ok) :
    ((w.shiftWork ro amount).2.unshiftWork ao
        (w.shiftWork ro amount).1).Children.size
      = w.Children.size := by
  have hn : amount.toNat ≤ w.Children.children.length := by
    simpa [ChildCache.size] using Int.toNat_le.mpr h2
  have hfst : (w.shiftWork ro amount).1
      = w.Children.children.take amount.toNat := by
    unfold Worker.shiftWork
    rw [if_pos ⟨h2, h1⟩]
    simpa using shiftLoop_fst ro (w.Children.toSlice.take amount.toNat) [] w
  have hchil : (w.shiftWork ro amount).2.Children.children
      = w.Children.children.drop amount.toNat := by
    unfold Worker.shiftWork
    rw [if_pos ⟨h2, h1⟩]
    apply shiftLoop_children ro (w.Children.children.drop amount.toNat)
      (w.Children.children.take amount.toNat)
    · simpa [ChildCache.toSlice] using hro
    · rw [List.take_append_drop]
      exact hnd
    · exact (List.take_append_drop amount.toNat w.Children.children).symm
  show ((w.shiftWork ro amount).2.unshiftWork ao
      (w.shiftWork ro amount).1).Children.children.length
    = w.Children.children.length
  rw [unshiftWork_children_ok ao (w.shiftWork ro amount).1 hao
      (w.shiftWork ro amount).2]
  rw [hfst, hchil, List.length_append, List.length_drop, List.length_take]
  omega

/-- Claim C9 witness: shifting two of three children and unshifting the
returned slice brings Size back to 3. -/
theorem shift_unshift_roundtrip_size_witness :
    ((0 : Int) < 2 ∧ (2 : Int) ≤ (workerC.Children.size : Int) ∧
      (workerC.Children.children.map Znode.Path).Nodup ∧
      (∀ v ∈ workerC.Children.toSlice.take (2 : Int).toNat,
        oOkD v = DeleteResp.ok) ∧
      (∀ v ∈ (workerC.shiftWork oOkD 2).1, oOkC v = CreateResp.ok)) ∧
    ((workerC.shiftWork oOkD 2).2.unshiftWork oOkC
        (workerC.shiftWork oOkD 2).1).Children.size
      = workerC.Children.size :=
  ⟨⟨by decide, by decide, by decide, by decide, by decide⟩,
    shift_unshift_roundtrip_size workerC oOkD oOkC 2 (by decide) (by decide)
      (by decide) (by decide) (by decide)⟩

/-- Claim C10: NewWork and NewWorker set their child cache creation flags
to ephemeral, and every create request issued through Children.Add on
those caches carries the ephemeral flag. -/
theorem newWork_newWorker_ephemeral (client : Client) (path : String)
    (resp : CreateResp) (node : Znode) :
    (NewWork client path).Children.CreateFlags = FlagEphemeral ∧
    (NewWorker client path).Children.CreateFlags = FlagEphemeral ∧
    ((NewWork client path).Children.add resp node).2.2.flags
      = FlagEphemeral ∧
    ((NewWorker client path).Children.add resp node).2.2.flags
      = FlagEphemeral := by
  cases resp <;> exact ⟨rfl, rfl, rfl, rfl⟩

end Curator
